import Mathlib

/-!
Shallow embedding of the relevance-scoring and context-packing core
(`src/utils/code_analyzer.py` and `src/utils/token_manager.py`).

Conventions:
* Python `str` is Lean `String`; Python `int` is `Int`/`Nat`; Python `float`
  values arising from the scoring arithmetic are modelled as `ℚ`.
* Python `dict` is an insertion-ordered association list (`List (key × value)`)
  with first-occurrence lookup, in-place overwrite and first-occurrence delete,
  matching CPython dict semantics.
* External dependencies (the `tiktoken` encoder, the `semantic_analizes` LLM
  wrapper from `call_llm`, Python's `float()` literal parser and the
  language-specific AST scanners) are parameters of the embedding; everything
  the claims quantify over is kept abstract, everything they compute is
  translated literally.
-/

/-- Python `needle` is a prefix of `hay` (on code points). -/
def listIsPrefixOf : List Char → List Char → Bool
  | [], _ => true
  | _ :: _, [] => false
  | a :: as, b :: bs => a == b && listIsPrefixOf as bs

/-- Helper for Python's substring test `needle in hay` on code points. -/
def listContainsSub (needle : List Char) : List Char → Bool
  | [] => needle.isEmpty
  | b :: t => listIsPrefixOf needle (b :: t) || listContainsSub needle t

/-- Python's substring test `needle in hay`. -/
def strIn (needle hay : String) : Bool := listContainsSub needle.data hay.data

/-- Python `str.lower()` (per-character lowercase). -/
def pyLower (s : String) : String := String.mk (s.data.map Char.toLower)

/-- Python `str.strip()`: drop leading and trailing whitespace. -/
def pyStrip (s : String) : String :=
  String.mk
    (((s.data.dropWhile Char.isWhitespace).reverse.dropWhile Char.isWhitespace).reverse)

/-- Python `str.endswith(suffix)`. -/
def strEndsWith (s suffix : String) : Bool :=
  listIsPrefixOf suffix.data.reverse s.data.reverse

/-- Python slicing `s[:n]` (on code points). -/
def strTake (s : String) (n : Nat) : String := String.mk (s.data.take n)

/-- Split a character list on a separator character (Python `str.split(sep)`
semantics: `n` separators yield `n+1` pieces, possibly empty). -/
def splitOnChar (sep : Char) : List Char → List (List Char)
  | [] => [[]]
  | c :: t =>
      let r := splitOnChar sep t
      if c = sep then [] :: r
      else
        match r with
        | [] => [[c]]
        | h :: rest => (c :: h) :: rest

/-- Python `content.split('\n')`. -/
def pySplitLines (s : String) : List String :=
  (splitOnChar (Char.ofNat 10) s.data).map String.mk

/-- First-occurrence lookup in an insertion-ordered dict. -/
def lookupAssoc {β : Type} : List (String × β) → String → Option β
  | [], _ => none
  | (k', v) :: t, k => if k' = k then some v else lookupAssoc t k

/-- Dict assignment `d[k] = v`: overwrite in place, else append. -/
def insertAssoc {β : Type} : List (String × β) → String → β → List (String × β)
  | [], k, v => [(k, v)]
  | (k', v') :: t, k, v =>
      if k' = k then (k, v) :: t else (k', v') :: insertAssoc t k v

/-- Dict deletion `del d[k]` (first occurrence). -/
def eraseAssoc {β : Type} : List (String × β) → String → List (String × β)
  | [], _ => []
  | (k', v') :: t, k => if k' = k then t else (k', v') :: eraseAssoc t k

/-- Sum of the per-key token counts recorded in a ledger. -/
def ledgerSum (l : List (String × Nat)) : Nat := (l.map Prod.snd).sum

/-- State of `TokenManager` (`src/utils/token_manager.py`).  The tokenizer
`count` models `len(self.encoding.encode text)` and is fixed at construction,
like the `tiktoken` encoding chosen from `model_name`. -/
structure TokenManager where
  count : String → Nat
  max_tokens : Nat
  current_tokens : Int
  content_tokens : List (String × Nat)
  target_priorities : List (String × ℚ)
  file_patterns : List String

/-- `TokenManager.__init__`: fresh manager with an empty ledger. -/
def TokenManager.fresh (count : String → Nat) (max_tokens : Nat) : TokenManager :=
  { count := count
    max_tokens := max_tokens
    current_tokens := 0
    content_tokens := []
    target_priorities := []
    file_patterns := [] }

/-- `TokenManager.count_tokens`. -/
def TokenManager.count_tokens (tm : TokenManager) (text : String) : Nat :=
  tm.count text

/-- `TokenManager.add_content`: returns the new state and the admission flag. -/
def TokenManager.add_content (tm : TokenManager) (key content : String) :
    TokenManager × Bool :=
  let tokens := tm.count_tokens content
  if tm.current_tokens + (tokens : Int) > (tm.max_tokens : Int) then
    (tm, false)
  else
    ({ tm with
        content_tokens := insertAssoc tm.content_tokens key tokens
        current_tokens := tm.current_tokens + (tokens : Int) }, true)

/-- `TokenManager.remove_content`. -/
def TokenManager.remove_content (tm : TokenManager) (key : String) : TokenManager :=
  match lookupAssoc tm.content_tokens key with
  | none => tm
  | some c =>
      { tm with
          current_tokens := tm.current_tokens - (c : Int)
          content_tokens := eraseAssoc tm.content_tokens key }

/-- `TokenManager.get_available_tokens`. -/
def TokenManager.get_available_tokens (tm : TokenManager) : Int :=
  (tm.max_tokens : Int) - tm.current_tokens

/-- States reachable from a fresh `TokenManager` by `add_content` /
`remove_content` calls. -/
inductive Reachable (count : String → Nat) (max_tokens : Nat) : TokenManager → Prop where
  | init : Reachable count max_tokens (TokenManager.fresh count max_tokens)
  | add (tm : TokenManager) (key content : String) :
      Reachable count max_tokens tm →
      Reachable count max_tokens (tm.add_content key content).1
  | remove (tm : TokenManager) (key : String) :
      Reachable count max_tokens tm →
      Reachable count max_tokens (tm.remove_content key)

lemma add_content_rejected (tm : TokenManager) (key content : String)
    (h : (tm.add_content key content).2 = false) :
    (tm.add_content key content).1 = tm := by
  by_cases hc : tm.current_tokens + (tm.count_tokens content : Int) > (tm.max_tokens : Int)
  · simp [TokenManager.add_content, hc]
  · simp [TokenManager.add_content, hc] at h

lemma add_content_max (tm : TokenManager) (key content : String) :
    (tm.add_content key content).1.max_tokens = tm.max_tokens := by
  by_cases hc : tm.current_tokens + (tm.count_tokens content : Int) > (tm.max_tokens : Int) <;>
    simp [TokenManager.add_content, hc]

lemma remove_content_max (tm : TokenManager) (key : String) :
    (tm.remove_content key).max_tokens = tm.max_tokens := by
  unfold TokenManager.remove_content
  cases lookupAssoc tm.content_tokens key <;> rfl

lemma reachable_current_le (count : String → Nat) (max_tokens : Nat)
    (tm : TokenManager) (h : Reachable count max_tokens tm) :
    tm.current_tokens ≤ (tm.max_tokens : Int) := by
  induction h with
  | init => simp [TokenManager.fresh]
  | add tm key content _ ih =>
      by_cases hc : tm.current_tokens + (tm.count_tokens content : Int) > (tm.max_tokens : Int)
      · simpa [TokenManager.add_content, hc] using ih
      · simp only [TokenManager.add_content, hc, if_false]
        push_neg at hc
        simpa using hc
  | remove tm key _ ih =>
      unfold TokenManager.remove_content
      cases lookupAssoc tm.content_tokens key with
      | none => exact ih
      | some c =>
          simp only []
          have : (0 : Int) ≤ (c : Int) := Int.ofNat_nonneg c
          omega

lemma insertAssoc_lookup_self {β : Type} (l : List (String × β)) (k : String) (c : β)
    (h : lookupAssoc l k = some c) : insertAssoc l k c = l := by
  induction l with
  | nil => simp [lookupAssoc] at h
  | cons hd t ih =>
      obtain ⟨k', v'⟩ := hd
      by_cases hk : k' = k
      · subst hk
        simp [lookupAssoc] at h
        simp [insertAssoc, h]
      · simp [lookupAssoc, hk] at h
        simp [insertAssoc, hk, ih h]

/-- **C2.** Every state reachable from a fresh `TokenManager` by any sequence
of `add_content` / `remove_content` calls satisfies
`current_tokens ≤ max_tokens`, and a rejected `add_content` returns the state
completely unchanged (same `current_tokens`, same ledger). -/
theorem tokenManager_budget_invariant (count : String → Nat) (max_tokens : Nat)
    (tm : TokenManager) (h : Reachable count max_tokens tm) :
    tm.current_tokens ≤ (tm.max_tokens : Int) ∧
    ∀ key content, (tm.add_content key content).2 = false →
      (tm.add_content key content).1 = tm := by
  refine ⟨reachable_current_le count max_tokens tm h, ?_⟩
  intro key content hrej
  exact add_content_rejected tm key content hrej

/-- Witness for C2: the invariant instantiated on the concrete reachable state
obtained by admitting and then removing one block. -/
theorem tokenManager_budget_invariant_witness :
    ((((TokenManager.fresh String.length 10).add_content "k" "abc").1.remove_content
        "k").current_tokens ≤
      (((((TokenManager.fresh String.length 10).add_content "k" "abc").1.remove_content
        "k").max_tokens : Int))) :=
  (tokenManager_budget_invariant String.length 10 _
    (Reachable.remove _ "k" (Reachable.add _ "k" "abc" Reachable.init))).1

/-- **C10.** Re-admitting an already-admitted key without removing it first
double-counts: if the ledger maps `k` to `c`, the new content also counts `c`
tokens, and the admission fits the budget, the call succeeds, the ledger is
unchanged (still maps `k` to `c` exactly once as before), yet `current_tokens`
grows by `c`, ending up `c` above the sum of the ledger entries. -/
theorem add_content_readmission_double_counts
    (tm : TokenManager) (k content : String) (c : Nat)
    (hledger : lookupAssoc tm.content_tokens k = some c)
    (hcount : tm.count content = c)
    (hfit : tm.current_tokens + (c : Int) ≤ (tm.max_tokens : Int))
    (hsum : tm.current_tokens = (ledgerSum tm.content_tokens : Int)) :
    (tm.add_content k content).2 = true ∧
    (tm.add_content k content).1.content_tokens = tm.content_tokens ∧
    (tm.add_content k content).1.current_tokens
      = (ledgerSum (tm.add_content k content).1.content_tokens : Int) + (c : Int) := by
  have hguard : ¬ tm.current_tokens + (tm.count_tokens content : Int) > (tm.max_tokens : Int) := by
    simp only [TokenManager.count_tokens, hcount]
    omega
  have hins : insertAssoc tm.content_tokens k (tm.count_tokens content) = tm.content_tokens := by
    simp only [TokenManager.count_tokens, hcount]
    exact insertAssoc_lookup_self tm.content_tokens k c hledger
  refine ⟨?_, ?_, ?_⟩
  · simp [TokenManager.add_content, hguard]
  · simp [TokenManager.add_content, hguard, hins]
  · simp only [TokenManager.add_content, hguard, if_false, hins]
    simp only [TokenManager.count_tokens, hcount]
    omega

/-- Witness for C10: a concrete manager holding `"k" ↦ 2` with a consistent
running sum; re-admitting `"k"` with two-character content double-counts. -/
theorem add_content_readmission_double_counts_witness :
    ((TokenManager.mk String.length 10 2 [("k", 2)] [] []).add_content "k" "ab").2 = true ∧
    ((TokenManager.mk String.length 10 2 [("k", 2)] [] []).add_content "k" "ab").1.content_tokens
        = [("k", 2)] ∧
    ((TokenManager.mk String.length 10 2 [("k", 2)] [] []).add_content "k" "ab").1.current_tokens
        = (ledgerSum (((TokenManager.mk String.length 10 2 [("k", 2)] [] []).add_content
            "k" "ab").1.content_tokens) : Int) + (2 : Int) :=
  add_content_readmission_double_counts
    (TokenManager.mk String.length 10 2 [("k", 2)] [] []) "k" "ab" 2
    (by decide) (by decide) (by decide) (by decide)

/-- `RelationshipScore` (`src/utils/code_analyzer.py`): four sub-scores,
all defaulting to `0`. -/
structure RelationshipScore where
  direct_import : ℚ := 0
  inheritance : ℚ := 0
  function_calls : ℚ := 0
  semantic : ℚ := 0

/-- `RelationshipScore.total`: weighted sum, iterating the weights dict in
insertion order (`direct_import`, `inheritance`, `function_calls`,
`semantic`). -/
def RelationshipScore.total (s : RelationshipScore) : ℚ :=
  s.direct_import * (3 / 10) + s.inheritance * (3 / 10)
    + s.function_calls * (1 / 5) + s.semantic * (1 / 5)

/-- External dependencies of `CodeAnalyzer`, kept abstract:

* `oracle` — modelled from the spec: the semantic oracle `semantic_analizes`
  (from `call_llm`, not under `src/`) maps a prompt to arbitrary response
  text, with no schema guarantee.
* `parseFloat` — Python's `float()` literal parser: `none` models a
  `ValueError`/`TypeError`, `some q` a successfully parsed value.
* `staticPy`/`staticJs`/`staticGo`/`staticJava` — the language-specific
  static scans (`ast` walking and line heuristics): given content and the
  target list they produce the `(direct_import, inheritance, function_calls)`
  triple assigned by the corresponding branch, and a flag that is `false`
  when the branch raised (in which case the `except` clause of
  `_analyze_file_relationships` skips the semantic block and keeps the
  partially assigned sub-scores). -/
structure AnalyzerEnv where
  oracle : String → String
  parseFloat : String → Option ℚ
  staticPy : String → List String → (ℚ × ℚ × ℚ) × Bool
  staticJs : String → List String → (ℚ × ℚ × ℚ) × Bool
  staticGo : String → List String → (ℚ × ℚ × ℚ) × Bool
  staticJava : String → List String → (ℚ × ℚ × ℚ) × Bool

/-- The `float`-parse-and-clamp step of `_analyze_semantic_relationship`:
`score = float(response.strip()); return min(max(score, 0.0), 0.4)`, with
`0.0` on `ValueError`/`TypeError`. -/
def semanticScoreOfResponse (parseFloat : String → Option ℚ) (response : String) : ℚ :=
  match parseFloat (pyStrip response) with
  | none => 0
  | some q => min (max q 0) (2 / 5)

/-- Per-target-file excerpt used in the oracle prompt: content truncated to
1000 characters with a `...` suffix when longer. -/
def targetPreview (target_content : String) : String :=
  if target_content.length > 1000 then strTake target_content 1000 ++ "..."
  else target_content

/-- `target_context` accumulation of `_analyze_semantic_relationship`: one
block per file whose path case-insensitively contains some target. -/
def targetContext (files_data : List (String × String)) (target_list : List String) :
    String :=
  String.join (files_data.map (fun pc =>
    if target_list.any (fun t => strIn (pyLower t) (pyLower pc.1)) then
      "\nFile: " ++ pc.1 ++ "\n" ++ targetPreview pc.2 ++ "\n"
    else ""))

/-- The fixed prompt template of `_analyze_semantic_relationship`. -/
def semanticPrompt (target_context content : String) : String :=
  "Analyze the semantic relationship between the following code and the target files.\nFocus on:\n1. Shared domain concepts and terminology\n2. Similar functionality or purpose\n3. Architectural relationships\n4. Business logic connections\n\nTarget files context:\n"
    ++ target_context
    ++ "\n\nCode to analyze:\n"
    ++ strTake content 1000
    ++ "... # Truncate for LLM context window\n\nRate the semantic relationship strength from 0.0 to 0.4, where:\n0.0 = No semantic relationship\n0.1-0.2 = Weak semantic relationship (few shared concepts)\n0.3-0.4 = Strong semantic relationship (many shared concepts)\n\nOutput only the number (e.g. \"0.2\")."

namespace CodeAnalyzer

/-- `_analyze_semantic_relationship`: returns the semantic score together
with the list of prompts submitted to the oracle (the invocation log). -/
def semanticRel (env : AnalyzerEnv) (content : String)
    (files_data : List (String × String)) (target_list : List String) :
    ℚ × List String :=
  if target_list.isEmpty then (0, [])
  else
    let tc := targetContext files_data target_list
    if tc = "" then (0, [])
    else
      let prompt := semanticPrompt tc content
      let response := env.oracle prompt
      (semanticScoreOfResponse env.parseFloat response, [prompt])

/-- `_analyze_file_relationships`: extension dispatch to the static scans,
then the semantic analysis when the branch completed and the static total is
below `0.3`.  Also returns the oracle-invocation log. -/
def analyzeFile (env : AnalyzerEnv) (files_data : List (String × String))
    (target_list : List String) (path content : String) :
    RelationshipScore × List String :=
  let stat :=
    if strEndsWith path ".py" then env.staticPy content target_list
    else if strEndsWith path ".js" || strEndsWith path ".jsx"
        || strEndsWith path ".ts" || strEndsWith path ".tsx" then
      env.staticJs content target_list
    else if strEndsWith path ".go" then env.staticGo content target_list
    else if strEndsWith path ".java" then env.staticJava content target_list
    else ((0, 0, 0), true)
  let score : RelationshipScore :=
    { direct_import := stat.1.1
      inheritance := stat.1.2.1
      function_calls := stat.1.2.2
      semantic := 0 }
  if stat.2 = true ∧ score.total < 3 / 10 then
    let sem := semanticRel env content files_data target_list
    ({ score with semantic := sem.1 }, sem.2)
  else (score, [])

/-- `analyze_file_relationships(files_data, file_patterns, target_list)`:
empty map when the target list is falsy, otherwise one pass of static plus
semantic analysis per file, keeping only strictly positive totals.  The
`file_patterns` parameter is accepted and ignored, exactly as in the source
(`self._files_data = files_data` and the `lru_cache` memoization do not
change the returned value and are not modelled).  Also returns the
oracle-invocation log. -/
def analyze_file_relationships (env : AnalyzerEnv)
    (files_data : List (String × String)) (file_patterns : List String)
    (target_list : List String) : List (String × ℚ) × List String :=
  if target_list.isEmpty then ([], [])
  else
    files_data.foldl
      (fun acc pc =>
        let res := analyzeFile env files_data target_list pc.1 pc.2
        let priorities :=
          if res.1.total > 0 then insertAssoc acc.1 pc.1 res.1.total else acc.1
        (priorities, acc.2 ++ res.2))
      ([], [])

end CodeAnalyzer

/-- **C4.** For sub-scores within their stated ranges, `total()` is the
weighted sum `0.3·direct_import + 0.3·inheritance + 0.2·function_calls +
0.2·semantic` and lies in `[0, 0.73]`. -/
theorem relationshipScore_total_formula_and_bounds (s : RelationshipScore)
    (h1 : 0 ≤ s.direct_import) (h2 : s.direct_import ≤ 4 / 5)
    (h3 : 0 ≤ s.inheritance) (h4 : s.inheritance ≤ 9 / 10)
    (h5 : 0 ≤ s.function_calls) (h6 : s.function_calls ≤ 7 / 10)
    (h7 : 0 ≤ s.semantic) (h8 : s.semantic ≤ 2 / 5) :
    s.total = (3 / 10) * s.direct_import + (3 / 10) * s.inheritance
        + (1 / 5) * s.function_calls + (1 / 5) * s.semantic ∧
    0 ≤ s.total ∧ s.total ≤ 73 / 100 := by
  unfold RelationshipScore.total
  refine ⟨by ring, by positivity, by linarith⟩

/-- Witness for C4: all four sub-scores at their caps give exactly `0.73`. -/
theorem relationshipScore_total_formula_and_bounds_witness :
    (RelationshipScore.mk (4 / 5) (9 / 10) (7 / 10) (2 / 5)).total
        = (3 / 10) * ((4 : ℚ) / 5) + (3 / 10) * (9 / 10)
          + (1 / 5) * (7 / 10) + (1 / 5) * (2 / 5) ∧
    0 ≤ (RelationshipScore.mk (4 / 5) (9 / 10) (7 / 10) (2 / 5)).total ∧
    (RelationshipScore.mk (4 / 5) (9 / 10) (7 / 10) (2 / 5)).total ≤ 73 / 100 :=
  relationshipScore_total_formula_and_bounds
    (RelationshipScore.mk (4 / 5) (9 / 10) (7 / 10) (2 / 5))
    (by norm_num) (by norm_num) (by norm_num) (by norm_num)
    (by norm_num) (by norm_num) (by norm_num) (by norm_num)

/-- **C9.** The semantic score computed from an oracle response is total (no
exception escapes): a response whose stripped text does not parse as a float
yields `0.0`, and a response that parses to `q` yields `min (max q 0) 0.4`,
which always lies in `[0, 0.4]`. -/
theorem semantic_response_parse_safe (parseFloat : String → Option ℚ)
    (response : String) :
    (parseFloat (pyStrip response) = none →
      semanticScoreOfResponse parseFloat response = 0) ∧
    (∀ q, parseFloat (pyStrip response) = some q →
      semanticScoreOfResponse parseFloat response = min (max q 0) (2 / 5) ∧
      0 ≤ semanticScoreOfResponse parseFloat response ∧
      semanticScoreOfResponse parseFloat response ≤ 2 / 5) := by
  constructor
  · intro h
    simp [semanticScoreOfResponse, h]
  · intro q h
    refine ⟨by simp [semanticScoreOfResponse, h], ?_, ?_⟩
    · simp only [semanticScoreOfResponse, h]
      have : (0 : ℚ) ≤ max q 0 := le_max_right q 0
      exact le_min this (by norm_num)
    · simp only [semanticScoreOfResponse, h]
      exact min_le_right _ _

/-- Witness for C9: a parser recognising only `"7"`; the response
`"not a number"` scores `0`, and `" 7 "` parses to `7` and is clamped to at
most `0.4`. -/
theorem semantic_response_parse_safe_witness :
    semanticScoreOfResponse
        (fun s => if s = "7" then some 7 else none) "not a number" = 0 ∧
    semanticScoreOfResponse
        (fun s => if s = "7" then some 7 else none) " 7 " ≤ 2 / 5 :=
  ⟨(semantic_response_parse_safe
      (fun s => if s = "7" then some 7 else none) "not a number").1
      (by simp [show pyStrip "not a number" = "not a number" from by decide]),
   ((semantic_response_parse_safe
      (fun s => if s = "7" then some 7 else none) " 7 ").2 7
      (by simp [show pyStrip " 7 " = "7" from by decide])).2.2⟩

/-- A benign concrete instantiation of the abstract analyzer environment:
the oracle answers `"0.0"`, nothing parses as a float, and the static scans
find nothing. -/
def defaultEnv : AnalyzerEnv :=
  { oracle := fun _ => "0.0"
    parseFloat := fun _ => none
    staticPy := fun _ _ => ((0, 0, 0), true)
    staticJs := fun _ _ => ((0, 0, 0), true)
    staticGo := fun _ _ => ((0, 0, 0), true)
    staticJava := fun _ _ => ((0, 0, 0), true) }

/-- Like `defaultEnv` but every oracle response parses as `0.2`. -/
def scoringEnv : AnalyzerEnv :=
  { defaultEnv with parseFloat := fun _ => some (1 / 5) }

/-- **C1 (failing input).** For the corpus `[("target.txt", "hello")]` and
target set `{"target"}`, the path `"target.txt"` contains the target
case-insensitively, yet `analyze_file_relationships` does not assign it
priority `1.0`: it runs the sub-score computation and invokes the semantic
oracle (non-empty invocation log); with an unparseable oracle response the
file is absent from the priority map, and with a response parsing to `0.2`
its priority is `0.2 * 0.2 = 0.04`, not `1.0`. -/
theorem analyze_no_direct_path_match_rule :
    strIn (pyLower "target") (pyLower "target.txt") = true ∧
    (CodeAnalyzer.analyze_file_relationships defaultEnv
        [("target.txt", "hello")] [] ["target"]).1 = [] ∧
    (CodeAnalyzer.analyze_file_relationships defaultEnv
        [("target.txt", "hello")] [] ["target"]).2 ≠ [] ∧
    lookupAssoc (CodeAnalyzer.analyze_file_relationships scoringEnv
        [("target.txt", "hello")] [] ["target"]).1 "target.txt" = some (1 / 25) := by
  have hext1 : strEndsWith "target.txt" ".py" = false := by decide
  have hext2 : strEndsWith "target.txt" ".js" = false := by decide
  have hext3 : strEndsWith "target.txt" ".jsx" = false := by decide
  have hext4 : strEndsWith "target.txt" ".ts" = false := by decide
  have hext5 : strEndsWith "target.txt" ".tsx" = false := by decide
  have hext6 : strEndsWith "target.txt" ".go" = false := by decide
  have hext7 : strEndsWith "target.txt" ".java" = false := by decide
  have htc : targetContext [("target.txt", "hello")] ["target"]
      = "\nFile: target.txt\nhello\n" := by decide
  have hne : ¬ (("\nFile: target.txt\nhello\n" : String) = "") := by decide
  have hfile : ∀ env : AnalyzerEnv,
      CodeAnalyzer.analyzeFile env [("target.txt", "hello")] ["target"] "target.txt" "hello"
        = ({ direct_import := 0, inheritance := 0, function_calls := 0,
             semantic := semanticScoreOfResponse env.parseFloat (env.oracle
               (semanticPrompt "\nFile: target.txt\nhello\n" "hello")) },
           [semanticPrompt "\nFile: target.txt\nhello\n" "hello"]) := by
    intro env
    simp only [CodeAnalyzer.analyzeFile, hext1, hext2, hext3, hext4, hext5, hext6, hext7,
      Bool.false_eq_true, if_false, Bool.or_self, Bool.or_false, Bool.false_or,
      CodeAnalyzer.semanticRel, htc, hne, List.isEmpty_cons]
    norm_num [RelationshipScore.total]
  refine ⟨by decide, ?_, ?_, ?_⟩
  · simp only [CodeAnalyzer.analyze_file_relationships, List.isEmpty_cons,
      Bool.false_eq_true, if_false, List.foldl_cons, List.foldl_nil, hfile defaultEnv]
    norm_num [RelationshipScore.total, defaultEnv, semanticScoreOfResponse]
  · simp only [CodeAnalyzer.analyze_file_relationships, List.isEmpty_cons,
      Bool.false_eq_true, if_false, List.foldl_cons, List.foldl_nil, hfile defaultEnv]
    norm_num [RelationshipScore.total, defaultEnv, semanticScoreOfResponse]
  · simp only [CodeAnalyzer.analyze_file_relationships, List.isEmpty_cons,
      Bool.false_eq_true, if_false, List.foldl_cons, List.foldl_nil, hfile scoringEnv]
    norm_num [RelationshipScore.total, scoringEnv, defaultEnv, semanticScoreOfResponse,
      insertAssoc, lookupAssoc]

/-- `_create_file_summary`: path line, character length line, the first 10
lines of the content joined with `''.join(...)`, and a trailing ellipsis. -/
def createFileSummary (path content : String) : String :=
  let lines := (pySplitLines content).take 10
  "File: " ++ path ++ "\n" ++ "Size: " ++ toString content.length ++ " chars\n"
    ++ "Preview:\n" ++ String.join lines ++ "\n..."

/-- A context entry produced by `_create_targeted_context`
(`{"path", "type", "content", "priority"}`). -/
structure ContextEntry where
  path : String
  type : String
  content : String
  priority : ℚ
deriving DecidableEq

/-- A context entry produced by `_create_basic_context`
(`{"path", "type", "content"}`, no priority field). -/
structure BasicEntry where
  path : String
  type : String
  content : String
deriving DecidableEq

/-- `self.target_priorities.get(path, 0)`. -/
def prioGet (prios : List (String × ℚ)) (path : String) : ℚ :=
  (lookupAssoc prios path).getD 0

/-- `len([t for t in target_list if t.lower() in x[0].lower()])`. -/
def numTargetMatches (target_list : List String) (path : String) : Nat :=
  (target_list.filter (fun t => strIn (pyLower t) (pyLower path))).length

/-- The composite sort key of `_create_targeted_context`
(ascending lexicographic order): negated direct-target-match count, negated
relationship priority, the test-file flag, negated content length. -/
def targetedSortKey (target_list : List String) (prios : List (String × ℚ))
    (x : String × String) : Int ×ₗ ℚ ×ₗ Bool ×ₗ Int :=
  toLex (-(numTargetMatches target_list x.1 : Int),
    toLex (-(prioGet prios x.1),
      toLex (strIn "test" (pyLower x.1), -(x.2.length : Int))))

/-- The composite sort key of `_create_basic_context`: test-file flag, then
negated content length. -/
def basicSortKey (x : String × String) : Bool ×ₗ Int :=
  toLex (strIn "test" (pyLower x.1), -(x.2.length : Int))

/-- Python's stable ascending `list.sort(key=...)`, modelled as a stable
insertion sort comparing keys. -/
def sortByKey {α β : Type} [LinearOrder β] (key : α → β) (l : List α) : List α :=
  List.insertionSort (fun a b => key a ≤ key b) l

/-- `os.path.normpath(path).split(os.sep)` length, with the POSIX separator;
`os.path.normpath` is modelled as the identity, which it is on the
already-normalised relative paths this embedding considers (no `.`, `..`,
repeated or trailing separators). -/
def pathDepth (path : String) : Nat := (splitOnChar '/' path.data).length

/-- The ascending list of distinct depth keys (`sorted(hierarchy.keys())`). -/
def sortedDepths (files_data : List (String × String)) : List Nat :=
  sortByKey id ((files_data.map (fun pc => pathDepth pc.1)).dedup)

/-- The files grouped at depth `d`, in corpus order (`hierarchy[d]`). -/
def levelFiles (files_data : List (String × String)) (d : Nat) :
    List (String × String) :=
  files_data.filter (fun pc => pathDepth pc.1 = d)

/-- `dict.update`: fold the updates into the dict left to right. -/
def updateAssoc {β : Type} (d upd : List (String × β)) : List (String × β) :=
  upd.foldl (fun acc kv => insertAssoc acc kv.1 kv.2) d

/-- One file of the admission loop of `_create_targeted_context`: try the
full content under `full_<path>`; on rejection synthesize the summary and try
it under `summary_<path>`; on a second rejection produce no entry. -/
def processFile (prios : List (String × ℚ)) (tm : TokenManager)
    (path content : String) : TokenManager × Option ContextEntry :=
  let full := tm.add_content ("full_" ++ path) content
  if full.2 then
    (full.1, some { path := path, type := "full", content := content,
                    priority := prioGet prios path })
  else
    let summary := createFileSummary path content
    let sumres := full.1.add_content ("summary_" ++ path) summary
    if sumres.2 then
      (sumres.1, some { path := path, type := "summary", content := summary,
                        priority := prioGet prios path })
    else (sumres.1, none)

/-- The admission loop of `_create_targeted_context` over the selected files
of one level: returns the final manager, the level's entries, and the paths
appended to `target_focused_files` (entries with positive priority). -/
def processLevel (prios : List (String × ℚ)) (tm : TokenManager) :
    List (String × String) → TokenManager × List ContextEntry × List String
  | [] => (tm, [], [])
  | pc :: rest =>
      let step := processFile prios tm pc.1 pc.2
      let next := processLevel prios step.1 rest
      match step.2 with
      | none => next
      | some entry =>
          (next.1, entry :: next.2.1,
            if entry.priority > 0 then pc.1 :: next.2.2 else next.2.2)

/-- The admission loop of `_create_basic_context` over one level. -/
def basicProcessLevel (tm : TokenManager) :
    List (String × String) → TokenManager × List BasicEntry
  | [] => (tm, [])
  | pc :: rest =>
      let full := tm.add_content ("full_" ++ pc.1) pc.2
      if full.2 then
        let next := basicProcessLevel full.1 rest
        (next.1, { path := pc.1, type := "full", content := pc.2 } :: next.2)
      else
        let summary := createFileSummary pc.1 pc.2
        let sumres := full.1.add_content ("summary_" ++ pc.1) summary
        if sumres.2 then
          let next := basicProcessLevel sumres.1 rest
          (next.1, { path := pc.1, type := "summary", content := summary } :: next.2)
        else basicProcessLevel sumres.1 rest

/-- The priority-analysis step of `_create_targeted_context`: when
`self.file_patterns` is truthy it calls
`analyze_file_relationships(files_data, target_list, self.file_patterns)` —
so the caller's `target_list` lands in the analyzer's `file_patterns`
parameter and `self.file_patterns` in its `target_list` parameter. -/
def targetedPriorities (env : AnalyzerEnv) (tm : TokenManager)
    (files_data : List (String × String)) (target_list : List String) :
    List (String × ℚ) :=
  if tm.file_patterns.isEmpty then []
  else
    (CodeAnalyzer.analyze_file_relationships env files_data
      target_list tm.file_patterns).1

/-- The hierarchical context object of `_create_targeted_context` (the unused
`file_summaries` dict stays empty and is omitted). -/
structure HierarchicalContext where
  levels : List (Nat × List ContextEntry)
  total_files : Nat
  target_focused_files : List String
deriving DecidableEq

/-- The context object of `_create_basic_context`. -/
structure BasicContext where
  levels : List (Nat × List BasicEntry)
  total_files : Nat
deriving DecidableEq

/-- The files selected for depth `d` in `_create_targeted_context`: the
level's files sorted by the composite key, truncated to
`max_files_per_level`. -/
def targetedSelected (target_list : List String) (prios : List (String × ℚ))
    (files_data : List (String × String)) (max_files_per_level d : Nat) :
    List (String × String) :=
  (sortByKey (targetedSortKey target_list prios)
    (levelFiles files_data d)).take max_files_per_level

/-- One depth-level iteration of `_create_targeted_context`: run the
admission loop on the selected files, append the level when non-empty, and
extend `target_focused_files`. -/
def targetedLevelStep (target_list : List String) (prios : List (String × ℚ))
    (files_data : List (String × String)) (max_files_per_level : Nat)
    (acc : TokenManager × List (Nat × List ContextEntry) × List String)
    (d : Nat) : TokenManager × List (Nat × List ContextEntry) × List String :=
  let res := processLevel prios acc.1
    (targetedSelected target_list prios files_data max_files_per_level d)
  (res.1,
    (if res.2.1.isEmpty then acc.2.1 else acc.2.1 ++ [(d, res.2.1)]),
    acc.2.2 ++ res.2.2)

/-- `_create_targeted_context`: pre-admit every file under its raw path,
merge the (argument-swapped) relationship priorities, then group by depth,
sort each level by the composite key, cap it at `max_files_per_level` and run
the admission loop.  Returns the final manager state and the context. -/
def createTargetedContext (env : AnalyzerEnv) (tm : TokenManager)
    (files_data : List (String × String)) (max_files_per_level : Nat)
    (target_list : List String) : TokenManager × HierarchicalContext :=
  let tm1 := files_data.foldl (fun t pc => (t.add_content pc.1 pc.2).1) tm
  let tm2 := { tm1 with
    target_priorities :=
      updateAssoc tm1.target_priorities
        (targetedPriorities env tm1 files_data target_list) }
  let final := (sortedDepths files_data).foldl
    (targetedLevelStep target_list tm2.target_priorities files_data
      max_files_per_level)
    (tm2, [], [])
  (final.1,
    { levels := final.2.1
      total_files := files_data.length
      target_focused_files := final.2.2 })

/-- One depth-level iteration of `_create_basic_context`. -/
def basicLevelStep (files_data : List (String × String))
    (max_files_per_level : Nat)
    (acc : TokenManager × List (Nat × List BasicEntry)) (d : Nat) :
    TokenManager × List (Nat × List BasicEntry) :=
  let sel := (sortByKey basicSortKey (levelFiles files_data d)).take
    max_files_per_level
  let res := basicProcessLevel acc.1 sel
  (res.1, if res.2.isEmpty then acc.2 else acc.2 ++ [(d, res.2)])

/-- `_create_basic_context`: group by depth, sort by the basic key, cap, and
run the admission loop.  No pre-admission pass and no priorities. -/
def createBasicContext (tm : TokenManager) (files_data : List (String × String))
    (max_files_per_level : Nat) : TokenManager × BasicContext :=
  let final := (sortedDepths files_data).foldl
    (basicLevelStep files_data max_files_per_level) (tm, [])
  (final.1, { levels := final.2, total_files := files_data.length })

lemma analyze_ignores_file_patterns (env : AnalyzerEnv)
    (files_data : List (String × String)) (P P' T : List String) :
    CodeAnalyzer.analyze_file_relationships env files_data P T
      = CodeAnalyzer.analyze_file_relationships env files_data P' T := rfl

/-- **C3.** `_create_targeted_context` passes `(files_data, target_list,
self.file_patterns)` to `analyze_file_relationships(files_data,
file_patterns, target_list)`: the priorities it merges are the analyzer run
whose `file_patterns` parameter receives the caller's target list and whose
`target_list` parameter receives `self.file_patterns` — hence they do not
depend on the caller's targets at all. -/
theorem targeted_priorities_swap_arguments (env : AnalyzerEnv)
    (tm : TokenManager) (files_data : List (String × String))
    (T1 T2 : List String) (h : tm.file_patterns.isEmpty = false) :
    targetedPriorities env tm files_data T1
      = targetedPriorities env tm files_data T2 ∧
    targetedPriorities env tm files_data T1
      = (CodeAnalyzer.analyze_file_relationships env files_data
          T1 tm.file_patterns).1 := by
  constructor
  · unfold targetedPriorities
    rw [h]
    simp only [Bool.false_eq_true, if_false]
    exact congrArg Prod.fst (analyze_ignores_file_patterns env files_data T1 T2 _)
  · unfold targetedPriorities
    rw [h]
    simp only [Bool.false_eq_true, if_false]

/-- Witness for C3: a manager with file patterns `["*.py"]` and two different
target lists. -/
theorem targeted_priorities_swap_arguments_witness :
    targetedPriorities defaultEnv
        (TokenManager.mk String.length 10 0 [] [] ["*.py"]) [] ["a"]
      = targetedPriorities defaultEnv
        (TokenManager.mk String.length 10 0 [] [] ["*.py"]) [] ["b"] ∧
    targetedPriorities defaultEnv
        (TokenManager.mk String.length 10 0 [] [] ["*.py"]) [] ["a"]
      = (CodeAnalyzer.analyze_file_relationships defaultEnv [] ["a"]
          (TokenManager.mk String.length 10 0 [] [] ["*.py"]).file_patterns).1 :=
  targeted_priorities_swap_arguments defaultEnv
    (TokenManager.mk String.length 10 0 [] [] ["*.py"]) [] ["a"] ["b"] rfl

lemma sortByKey_sorted {α β : Type} [LinearOrder β] (key : α → β) (l : List α) :
    List.Sorted (fun a b => key a ≤ key b) (sortByKey key l) := by
  haveI h1 : IsTotal α (fun a b => key a ≤ key b) :=
    ⟨fun a b => le_total (key a) (key b)⟩
  haveI h2 : IsTrans α (fun a b => key a ≤ key b) :=
    ⟨fun a b c hab hbc => le_trans hab hbc⟩
  exact List.sorted_insertionSort _ l

lemma sortByKey_perm {α β : Type} [LinearOrder β] (key : α → β) (l : List α) :
    (sortByKey key l).Perm l := List.perm_insertionSort _ l

/-- A string of `n` repeated characters, standing in for file content of
length `n`. -/
def strRep (n : Nat) : String := String.mk (List.replicate n 'x')

lemma strRep_length (n : Nat) : (strRep n).length = n := by
  simp [strRep, String.length]

/-- **C5.** Within a depth level, `_create_targeted_context` orders files by
the exact composite key (direct-target-match count descending, relationship
priority descending, non-test before test, content length descending): the
sorted level is a permutation of the level sorted with respect to
`targetedSortKey`; in particular `a.py` (priority `0.5`, length 100),
`b.py` (priority `0.9`, length 10), `test_c.py` (priority `0.9`, length 500)
with no direct target matches come out as
`[b.py, test_c.py, a.py]`. -/
theorem targeted_level_ordering (target_list : List String)
    (prios : List (String × ℚ)) (files : List (String × String)) :
    (List.Sorted
        (fun a b => targetedSortKey target_list prios a
          ≤ targetedSortKey target_list prios b)
        (sortByKey (targetedSortKey target_list prios) files) ∧
      (sortByKey (targetedSortKey target_list prios) files).Perm files) ∧
    sortByKey
        (targetedSortKey ["zzz"]
          [("a.py", 1 / 2), ("b.py", 9 / 10), ("test_c.py", 9 / 10)])
        [("a.py", strRep 100), ("b.py", strRep 10), ("test_c.py", strRep 500)]
      = [("b.py", strRep 10), ("test_c.py", strRep 500), ("a.py", strRep 100)] := by
  refine ⟨⟨sortByKey_sorted _ files, sortByKey_perm _ files⟩, ?_⟩
  have hza : strIn (pyLower "zzz") (pyLower "a.py") = false := by decide
  have hzb : strIn (pyLower "zzz") (pyLower "b.py") = false := by decide
  have hzc : strIn (pyLower "zzz") (pyLower "test_c.py") = false := by decide
  have hta : strIn "test" (pyLower "a.py") = false := by decide
  have htb : strIn "test" (pyLower "b.py") = false := by decide
  have htc : strIn "test" (pyLower "test_c.py") = true := by decide
  have kA : targetedSortKey ["zzz"]
      [("a.py", 1 / 2), ("b.py", 9 / 10), ("test_c.py", 9 / 10)]
      ("a.py", strRep 100)
      = toLex ((0 : Int), toLex (-(1 / 2 : ℚ), toLex (false, (-100 : Int)))) := by
    simp [targetedSortKey, numTargetMatches, prioGet, lookupAssoc, hza, hta,
      strRep_length, List.filter]
  have kB : targetedSortKey ["zzz"]
      [("a.py", 1 / 2), ("b.py", 9 / 10), ("test_c.py", 9 / 10)]
      ("b.py", strRep 10)
      = toLex ((0 : Int), toLex (-(9 / 10 : ℚ), toLex (false, (-10 : Int)))) := by
    simp [targetedSortKey, numTargetMatches, prioGet, lookupAssoc, hzb, htb,
      strRep_length, List.filter]
  have kC : targetedSortKey ["zzz"]
      [("a.py", 1 / 2), ("b.py", 9 / 10), ("test_c.py", 9 / 10)]
      ("test_c.py", strRep 500)
      = toLex ((0 : Int), toLex (-(9 / 10 : ℚ), toLex (true, (-500 : Int)))) := by
    simp [targetedSortKey, numTargetMatches, prioGet, lookupAssoc, hzc, htc,
      strRep_length, List.filter]
  have hBC : targetedSortKey ["zzz"]
      [("a.py", 1 / 2), ("b.py", 9 / 10), ("test_c.py", 9 / 10)] ("b.py", strRep 10)
      ≤ targetedSortKey ["zzz"]
      [("a.py", 1 / 2), ("b.py", 9 / 10), ("test_c.py", 9 / 10)]
      ("test_c.py", strRep 500) := by
    rw [kB, kC]
    rw [Prod.Lex.le_iff]
    refine Or.inr ⟨rfl, ?_⟩
    rw [Prod.Lex.le_iff]
    refine Or.inr ⟨rfl, ?_⟩
    rw [Prod.Lex.le_iff]
    exact Or.inl Bool.false_lt_true
  have hAB : ¬ targetedSortKey ["zzz"]
      [("a.py", 1 / 2), ("b.py", 9 / 10), ("test_c.py", 9 / 10)] ("a.py", strRep 100)
      ≤ targetedSortKey ["zzz"]
      [("a.py", 1 / 2), ("b.py", 9 / 10), ("test_c.py", 9 / 10)] ("b.py", strRep 10) := by
    rw [kA, kB]
    rw [Prod.Lex.le_iff]
    push_neg
    refine ⟨by norm_num, fun _ => ?_⟩
    show toLex (-(9 / 10 : ℚ), toLex (false, (-10 : Int)))
        < toLex (-(1 / 2 : ℚ), toLex (false, (-100 : Int)))
    rw [Prod.Lex.lt_iff]
    exact Or.inl (by norm_num)
  have hAC : ¬ targetedSortKey ["zzz"]
      [("a.py", 1 / 2), ("b.py", 9 / 10), ("test_c.py", 9 / 10)] ("a.py", strRep 100)
      ≤ targetedSortKey ["zzz"]
      [("a.py", 1 / 2), ("b.py", 9 / 10), ("test_c.py", 9 / 10)]
      ("test_c.py", strRep 500) := by
    rw [kA, kC]
    rw [Prod.Lex.le_iff]
    push_neg
    refine ⟨by norm_num, fun _ => ?_⟩
    show toLex (-(9 / 10 : ℚ), toLex (true, (-500 : Int)))
        < toLex (-(1 / 2 : ℚ), toLex (false, (-100 : Int)))
    rw [Prod.Lex.lt_iff]
    exact Or.inl (by norm_num)
  simp only [sortByKey, List.insertionSort, List.orderedInsert, hBC, hAB, hAC,
    if_true, if_false, ite_true, ite_false, eq_self_iff_true]

/-- **C6.** In the targeted admission loop, when the full-content admission
of a selected file is rejected, the summary produced by
`_create_file_summary` (path, character length, first 10 lines, ellipsis) is
synthesized and admission is attempted under `summary_<path>`: whenever that
summary fits the remaining budget the file appears in the level as a summary
entry, and only when the summary admission is also rejected is the file
omitted from the level. -/
theorem summary_fallback (prios : List (String × ℚ)) (tm : TokenManager)
    (path content : String) (rest : List (String × String))
    (hfull : (tm.add_content ("full_" ++ path) content).2 = false) :
    ((tm.count_tokens (createFileSummary path content) : Int)
        ≤ tm.get_available_tokens →
      processLevel prios tm ((path, content) :: rest)
        = ((processLevel prios
              (tm.add_content ("summary_" ++ path)
                (createFileSummary path content)).1 rest).1,
           ({ path := path, type := "summary",
              content := createFileSummary path content,
              priority := prioGet prios path } : ContextEntry)
             :: (processLevel prios
                  (tm.add_content ("summary_" ++ path)
                    (createFileSummary path content)).1 rest).2.1,
           if prioGet prios path > 0 then
             path :: (processLevel prios
               (tm.add_content ("summary_" ++ path)
                 (createFileSummary path content)).1 rest).2.2
           else
             (processLevel prios
               (tm.add_content ("summary_" ++ path)
                 (createFileSummary path content)).1 rest).2.2)) ∧
    (tm.get_available_tokens
        < (tm.count_tokens (createFileSummary path content) : Int) →
      processLevel prios tm ((path, content) :: rest)
        = processLevel prios tm rest) := by
  have hfull1 : (tm.add_content ("full_" ++ path) content).1 = tm :=
    add_content_rejected _ _ _ hfull
  constructor
  · intro hfit
    have hc : ¬ (tm.current_tokens
        + (tm.count_tokens (createFileSummary path content) : Int)
        > (tm.max_tokens : Int)) := by
      unfold TokenManager.get_available_tokens at hfit
      omega
    have hok : (tm.add_content ("summary_" ++ path)
        (createFileSummary path content)).2 = true := by
      simp [TokenManager.add_content, hc]
    simp only [processLevel, processFile, hfull, hfull1, Bool.false_eq_true,
      if_false, hok, if_true]
  · intro hnofit
    have hc : tm.current_tokens
        + (tm.count_tokens (createFileSummary path content) : Int)
        > (tm.max_tokens : Int) := by
      unfold TokenManager.get_available_tokens at hnofit
      omega
    have hrej : (tm.add_content ("summary_" ++ path)
        (createFileSummary path content)).2 = false := by
      simp [TokenManager.add_content, hc]
    have hrej1 : (tm.add_content ("summary_" ++ path)
        (createFileSummary path content)).1 = tm :=
      add_content_rejected _ _ _ hrej
    simp only [processLevel, processFile, hfull, hfull1, Bool.false_eq_true,
      if_false, hrej, hrej1]

/-- Thirty lines of `"xy"`: 89 characters in full, while its summary (first
ten lines, 59 characters) is shorter. -/
def sampleContent : String :=
  String.mk (List.intercalate [Char.ofNat 10] (List.replicate 30 ['x', 'y']))

/-- Witness for C6: with a 70-token budget and length-based counting, the
89-character `sampleContent` is rejected in full but its 59-character summary
is admitted, so the file shows up as a summary entry. -/
theorem summary_fallback_witness :
    processLevel [] (TokenManager.mk String.length 70 0 [] [] [])
        [("a.py", sampleContent)]
      = ((processLevel []
            ((TokenManager.mk String.length 70 0 [] [] []).add_content
              ("summary_" ++ "a.py") (createFileSummary "a.py" sampleContent)).1 []).1,
         ({ path := "a.py", type := "summary",
            content := createFileSummary "a.py" sampleContent,
            priority := prioGet [] "a.py" } : ContextEntry)
           :: (processLevel []
                ((TokenManager.mk String.length 70 0 [] [] []).add_content
                  ("summary_" ++ "a.py") (createFileSummary "a.py" sampleContent)).1 []).2.1,
         if prioGet [] "a.py" > 0 then
           "a.py" :: (processLevel []
             ((TokenManager.mk String.length 70 0 [] [] []).add_content
               ("summary_" ++ "a.py") (createFileSummary "a.py" sampleContent)).1 []).2.2
         else
           (processLevel []
             ((TokenManager.mk String.length 70 0 [] [] []).add_content
               ("summary_" ++ "a.py") (createFileSummary "a.py" sampleContent)).1 []).2.2) :=
  (summary_fallback [] (TokenManager.mk String.length 70 0 [] [] [])
    "a.py" sampleContent [] (by decide)).1 (by decide)

/-- The keys currently present in a ledger. -/
def keysOf {β : Type} (l : List (String × β)) : List String := l.map Prod.fst

lemma insertAssoc_keys {β : Type} (l : List (String × β)) (k : String) (v : β)
    (k' : String) (h : k' ∈ keysOf (insertAssoc l k v)) :
    k' ∈ keysOf l ∨ k' = k := by
  induction l with
  | nil =>
      simp [insertAssoc, keysOf] at h
      exact Or.inr h
  | cons hd t ih =>
      obtain ⟨k0, v0⟩ := hd
      by_cases hk : k0 = k
      · subst hk
        simp [insertAssoc, keysOf] at h
        rcases h with h | h
        · exact Or.inr h
        · exact Or.inl (by simp [keysOf, h])
      · simp [insertAssoc, hk, keysOf] at h
        rcases h with h | h
        · exact Or.inl (by simp [keysOf, h])
        · rcases ih (by simpa [keysOf] using h) with h' | h'
          · exact Or.inl (by simp [keysOf] at h' ⊢; exact Or.inr h')
          · exact Or.inr h'

lemma add_content_keys (tm : TokenManager) (key content : String) (k' : String)
    (h : k' ∈ keysOf (tm.add_content key content).1.content_tokens) :
    k' ∈ keysOf tm.content_tokens ∨ k' = key := by
  by_cases hc : tm.current_tokens + (tm.count_tokens content : Int)
      > (tm.max_tokens : Int)
  · simp [TokenManager.add_content, hc] at h
    exact Or.inl h
  · simp only [TokenManager.add_content, hc, if_false] at h
    exact insertAssoc_keys _ _ _ _ h

lemma processFile_keys (prios : List (String × ℚ)) (tm : TokenManager)
    (path content : String) (k' : String)
    (h : k' ∈ keysOf (processFile prios tm path content).1.content_tokens) :
    k' ∈ keysOf tm.content_tokens ∨ k' = "full_" ++ path
      ∨ k' = "summary_" ++ path := by
  unfold processFile at h
  by_cases hfull : (tm.add_content ("full_" ++ path) content).2
  · simp only [hfull, if_true] at h
    rcases add_content_keys tm _ content k' h with h' | h'
    · exact Or.inl h'
    · exact Or.inr (Or.inl h')
  · simp only [hfull, if_false, Bool.false_eq_true] at h
    by_cases hsum : ((tm.add_content ("full_" ++ path) content).1.add_content
        ("summary_" ++ path) (createFileSummary path content)).2
    · simp only [hsum, if_true] at h
      rcases add_content_keys _ _ _ k' h with h' | h'
      · rcases add_content_keys tm _ content k' h' with h'' | h''
        · exact Or.inl h''
        · exact Or.inr (Or.inl h'')
      · exact Or.inr (Or.inr h')
    · simp only [hsum, if_false, Bool.false_eq_true] at h
      rcases add_content_keys _ _ _ k' h with h' | h'
      · rcases add_content_keys tm _ content k' h' with h'' | h''
        · exact Or.inl h''
        · exact Or.inr (Or.inl h'')
      · exact Or.inr (Or.inr h')

lemma processLevel_keys (prios : List (String × ℚ)) (tm : TokenManager)
    (files : List (String × String)) (k' : String)
    (h : k' ∈ keysOf (processLevel prios tm files).1.content_tokens) :
    k' ∈ keysOf tm.content_tokens ∨
      ∃ p, p ∈ files.map Prod.fst ∧
        (k' = "full_" ++ p ∨ k' = "summary_" ++ p) := by
  induction files generalizing tm with
  | nil =>
      simp [processLevel] at h
      exact Or.inl h
  | cons pc rest ih =>
      have hstep : (processLevel prios tm (pc :: rest)).1
          = (processLevel prios (processFile prios tm pc.1 pc.2).1 rest).1 := by
        simp only [processLevel]
        cases (processFile prios tm pc.1 pc.2).2 <;> simp
      rw [hstep] at h
      rcases ih _ h with h' | ⟨p, hp, hk⟩
      · rcases processFile_keys prios tm pc.1 pc.2 k' h' with h'' | h'' | h''
        · exact Or.inl h''
        · exact Or.inr ⟨pc.1, by simp, Or.inl h''⟩
        · exact Or.inr ⟨pc.1, by simp, Or.inr h''⟩
      · exact Or.inr ⟨p, by simp [hp], hk⟩

lemma basicProcessLevel_keys (tm : TokenManager)
    (files : List (String × String)) (k' : String)
    (h : k' ∈ keysOf (basicProcessLevel tm files).1.content_tokens) :
    k' ∈ keysOf tm.content_tokens ∨
      ∃ p, p ∈ files.map Prod.fst ∧
        (k' = "full_" ++ p ∨ k' = "summary_" ++ p) := by
  induction files generalizing tm with
  | nil =>
      simp [basicProcessLevel] at h
      exact Or.inl h
  | cons pc rest ih =>
      unfold basicProcessLevel at h
      by_cases hfull : (tm.add_content ("full_" ++ pc.1) pc.2).2
      · simp only [hfull, if_true] at h
        rcases ih _ h with h' | ⟨p, hp, hk⟩
        · rcases add_content_keys tm _ pc.2 k' h' with h'' | h''
          · exact Or.inl h''
          · exact Or.inr ⟨pc.1, by simp, Or.inl h''⟩
        · exact Or.inr ⟨p, by simp [hp], hk⟩
      · simp only [hfull, if_false, Bool.false_eq_true] at h
        by_cases hsum : ((tm.add_content ("full_" ++ pc.1) pc.2).1.add_content
            ("summary_" ++ pc.1) (createFileSummary pc.1 pc.2)).2
        · simp only [hsum, if_true] at h
          rcases ih _ h with h' | ⟨p, hp, hk⟩
          · rcases add_content_keys _ _ _ k' h' with h'' | h''
            · rcases add_content_keys tm _ pc.2 k' h'' with h3 | h3
              · exact Or.inl h3
              · exact Or.inr ⟨pc.1, by simp, Or.inl h3⟩
            · exact Or.inr ⟨pc.1, by simp, Or.inr h''⟩
          · exact Or.inr ⟨p, by simp [hp], hk⟩
        · simp only [hsum, if_false, Bool.false_eq_true] at h
          rcases ih _ h with h' | ⟨p, hp, hk⟩
          · rcases add_content_keys _ _ _ k' h' with h'' | h''
            · rcases add_content_keys tm _ pc.2 k' h'' with h3 | h3
              · exact Or.inl h3
              · exact Or.inr ⟨pc.1, by simp, Or.inl h3⟩
            · exact Or.inr ⟨pc.1, by simp, Or.inr h''⟩
          · exact Or.inr ⟨p, by simp [hp], hk⟩

lemma targetedSelected_subset (target_list : List String)
    (prios : List (String × ℚ)) (files_data : List (String × String))
    (cap d : Nat) (x : String × String)
    (h : x ∈ targetedSelected target_list prios files_data cap d) :
    x ∈ files_data := by
  unfold targetedSelected at h
  have h1 : x ∈ sortByKey (targetedSortKey target_list prios)
      (levelFiles files_data d) := List.take_subset _ _ h
  have h2 : x ∈ levelFiles files_data d :=
    (sortByKey_perm _ _).mem_iff.mp h1
  exact (List.mem_filter.mp h2).1

lemma basicSelected_subset (files_data : List (String × String))
    (cap d : Nat) (x : String × String)
    (h : x ∈ (sortByKey basicSortKey (levelFiles files_data d)).take cap) :
    x ∈ files_data := by
  have h1 : x ∈ sortByKey basicSortKey (levelFiles files_data d) :=
    List.take_subset _ _ h
  have h2 : x ∈ levelFiles files_data d :=
    (sortByKey_perm _ _).mem_iff.mp h1
  exact (List.mem_filter.mp h2).1

lemma targeted_fold_keys (target_list : List String)
    (prios : List (String × ℚ)) (files_data : List (String × String))
    (cap : Nat) (ds : List Nat)
    (acc : TokenManager × List (Nat × List ContextEntry) × List String)
    (k : String)
    (h : k ∈ keysOf (ds.foldl
        (targetedLevelStep target_list prios files_data cap) acc).1.content_tokens) :
    k ∈ keysOf acc.1.content_tokens ∨
      ∃ p, p ∈ files_data.map Prod.fst ∧
        (k = "full_" ++ p ∨ k = "summary_" ++ p) := by
  induction ds generalizing acc with
  | nil => exact Or.inl h
  | cons d rest ih =>
      rcases ih _ h with h' | h'
      · unfold targetedLevelStep at h'
        rcases processLevel_keys _ _ _ _ h' with h'' | ⟨p, hp, hk⟩
        · exact Or.inl h''
        · refine Or.inr ⟨p, ?_, hk⟩
          simp only [List.mem_map] at hp ⊢
          obtain ⟨x, hx, hxp⟩ := hp
          exact ⟨x, targetedSelected_subset _ _ _ _ _ x hx, hxp⟩
      · exact Or.inr h'

lemma basic_fold_keys (files_data : List (String × String)) (cap : Nat)
    (ds : List Nat) (acc : TokenManager × List (Nat × List BasicEntry))
    (k : String)
    (h : k ∈ keysOf (ds.foldl
        (basicLevelStep files_data cap) acc).1.content_tokens) :
    k ∈ keysOf acc.1.content_tokens ∨
      ∃ p, p ∈ files_data.map Prod.fst ∧
        (k = "full_" ++ p ∨ k = "summary_" ++ p) := by
  induction ds generalizing acc with
  | nil => exact Or.inl h
  | cons d rest ih =>
      rcases ih _ h with h' | h'
      · unfold basicLevelStep at h'
        rcases basicProcessLevel_keys _ _ _ h' with h'' | ⟨p, hp, hk⟩
        · exact Or.inl h''
        · refine Or.inr ⟨p, ?_, hk⟩
          simp only [List.mem_map] at hp ⊢
          obtain ⟨x, hx, hxp⟩ := hp
          exact ⟨x, basicSelected_subset _ _ _ x hx, hxp⟩
      · exact Or.inr h'

lemma preAdd_keys (files_data : List (String × String)) (tm : TokenManager)
    (k : String)
    (h : k ∈ keysOf (files_data.foldl
        (fun t pc => (t.add_content pc.1 pc.2).1) tm).content_tokens) :
    k ∈ keysOf tm.content_tokens ∨ k ∈ files_data.map Prod.fst := by
  induction files_data generalizing tm with
  | nil => exact Or.inl h
  | cons pc rest ih =>
      rcases ih _ h with h' | h'
      · rcases add_content_keys tm pc.1 pc.2 k h' with h'' | h''
        · exact Or.inl h''
        · exact Or.inr (by simp [h''])
      · exact Or.inr (by simp [h'])

/-- **C7 (amended).** In `_create_basic_context` every key added to the
ledger is namespaced `full_<path>` or `summary_<path>` for some input path;
in `_create_targeted_context` the pre-analysis pass additionally admits every
file under its raw un-namespaced path, so a targeted run's ledger also
contains plain path keys. -/
theorem ledger_key_namespacing (env : AnalyzerEnv) (tm : TokenManager)
    (files_data : List (String × String)) (cap : Nat)
    (target_list : List String) :
    (∀ k, k ∈ keysOf (createBasicContext tm files_data cap).1.content_tokens →
      k ∈ keysOf tm.content_tokens ∨
        ∃ p, p ∈ files_data.map Prod.fst ∧
          (k = "full_" ++ p ∨ k = "summary_" ++ p)) ∧
    (∀ k, k ∈ keysOf (createTargetedContext env tm files_data cap
        target_list).1.content_tokens →
      k ∈ keysOf tm.content_tokens ∨
        ∃ p, p ∈ files_data.map Prod.fst ∧
          (k = "full_" ++ p ∨ k = "summary_" ++ p ∨ k = p)) := by
  constructor
  · intro k h
    exact basic_fold_keys files_data cap _ _ k h
  · intro k h
    unfold createTargetedContext at h
    rcases targeted_fold_keys _ _ files_data cap _ _ k h with h' | ⟨p, hp, hk⟩
    · simp only [keysOf] at h'
      rcases preAdd_keys files_data tm k h' with h'' | h''
      · exact Or.inl h''
      · exact Or.inr ⟨k, h'', Or.inr (Or.inr rfl)⟩
    · exact Or.inr ⟨p, hp, by tauto⟩

/-- Witness for C7 (amended): a basic run over one file admits
`full_a.py`, which the theorem traces back to the input path `a.py`. -/
theorem ledger_key_namespacing_witness :
    ("full_" ++ "a.py") ∈ keysOf
        (TokenManager.mk String.length 100 0 [] [] []).content_tokens ∨
      ∃ p, p ∈ [("a.py", "x")].map Prod.fst ∧
        ("full_" ++ "a.py" = "full_" ++ p ∨ "full_" ++ "a.py" = "summary_" ++ p) :=
  (ledger_key_namespacing defaultEnv (TokenManager.mk String.length 100 0 [] [] [])
    [("a.py", "x")] 50 ["a"]).1 ("full_" ++ "a.py") (by decide)

/-- **C7 (counterexample).** A concrete targeted run whose final ledger
contains the raw key `"a.py"`, which carries neither the `full_` nor the
`summary_` namespace prefix: the claim that every admitted key is namespaced
is false for `_create_targeted_context`. -/
theorem ledger_raw_key_counterexample :
    "a.py" ∈ keysOf (createTargetedContext defaultEnv
        (TokenManager.mk String.length 1000 0 [] [] [])
        [("a.py", "x")] 50 ["a"]).1.content_tokens ∧
    listIsPrefixOf "full_".data "a.py".data = false ∧
    listIsPrefixOf "summary_".data "a.py".data = false := by
  refine ⟨?_, by decide, by decide⟩
  decide

lemma processFile_entry_path (prios : List (String × ℚ)) (tm : TokenManager)
    (path content : String) (e : ContextEntry)
    (h : (processFile prios tm path content).2 = some e) : e.path = path := by
  unfold processFile at h
  by_cases hfull : (tm.add_content ("full_" ++ path) content).2
  · simp only [hfull, if_true, Option.some.injEq] at h
    rw [← h]
  · simp only [hfull, if_false, Bool.false_eq_true] at h
    by_cases hsum : ((tm.add_content ("full_" ++ path) content).1.add_content
        ("summary_" ++ path) (createFileSummary path content)).2
    · simp only [hsum, if_true, Option.some.injEq] at h
      rw [← h]
    · simp [hsum] at h

lemma processLevel_length (prios : List (String × ℚ)) (tm : TokenManager)
    (files : List (String × String)) :
    (processLevel prios tm files).2.1.length ≤ files.length := by
  induction files generalizing tm with
  | nil => simp [processLevel]
  | cons pc rest ih =>
      simp only [processLevel]
      cases hstep : (processFile prios tm pc.1 pc.2).2 with
      | none =>
          simp only []
          exact le_trans (ih _) (by simp)
      | some entry =>
          simp only [List.length_cons]
          exact Nat.succ_le_succ (ih _)

lemma processLevel_paths (prios : List (String × ℚ)) (tm : TokenManager)
    (files : List (String × String)) (e : ContextEntry)
    (h : e ∈ (processLevel prios tm files).2.1) :
    e.path ∈ files.map Prod.fst := by
  induction files generalizing tm with
  | nil => simp [processLevel] at h
  | cons pc rest ih =>
      simp only [processLevel] at h
      cases hstep : (processFile prios tm pc.1 pc.2).2 with
      | none =>
          rw [hstep] at h
          simp only [] at h
          simpa using Or.inr (by simpa using ih _ h)
      | some entry =>
          rw [hstep] at h
          simp only [List.mem_cons] at h
          rcases h with h | h
          · subst h
            have hp := processFile_entry_path prios tm pc.1 pc.2 e hstep
            simp [hp]
          · simpa using Or.inr (by simpa using ih _ h)

lemma targeted_fold_levels (target_list : List String)
    (prios : List (String × ℚ)) (files_data : List (String × String))
    (cap : Nat) (ds : List Nat)
    (acc : TokenManager × List (Nat × List ContextEntry) × List String)
    (d : Nat) (entries : List ContextEntry)
    (h : (d, entries) ∈ (ds.foldl
        (targetedLevelStep target_list prios files_data cap) acc).2.1) :
    (d, entries) ∈ acc.2.1 ∨
      ∃ tm0, entries = (processLevel prios tm0
        (targetedSelected target_list prios files_data cap d)).2.1 := by
  induction ds generalizing acc with
  | nil => exact Or.inl h
  | cons d0 rest ih =>
      rcases ih _ h with h' | h'
      · unfold targetedLevelStep at h'
        by_cases hemp : (processLevel prios acc.1
            (targetedSelected target_list prios files_data cap d0)).2.1.isEmpty
        · simp only [hemp, if_true] at h'
          exact Or.inl h'
        · simp only [hemp, if_false, Bool.false_eq_true, List.mem_append,
            List.mem_singleton] at h'
          rcases h' with h' | h'
          · exact Or.inl h'
          · simp only [Prod.mk.injEq] at h'
            obtain ⟨hd, he⟩ := h'
            subst hd
            exact Or.inr ⟨acc.1, he⟩
      · exact Or.inr h'

/-- **C8 (amended).** Each level of a targeted run carries at most
`max_files_per_level` entries, every entry in a level comes from a file of
that depth (beyond-cap files are dropped, never deferred to another level);
and in the concrete run with 3 depth-1 files, cap 2 and an ample budget,
exactly 2 entries appear at depth 1. -/
theorem per_level_cap (env : AnalyzerEnv) (tm : TokenManager)
    (files_data : List (String × String)) (cap : Nat)
    (target_list : List String) :
    (∀ d entries,
      (d, entries) ∈ (createTargetedContext env tm files_data cap
          target_list).2.levels →
      entries.length ≤ cap ∧
        ∀ e ∈ entries, e.path ∈ (levelFiles files_data d).map Prod.fst) ∧
    ((createTargetedContext defaultEnv
        (TokenManager.mk String.length 1000 0 [] [] [])
        [("a.py", "x"), ("b.py", "y"), ("c.py", "z")] 2 ["q"]).2.levels.map
      (fun l => (l.1, l.2.length))) = [(1, 2)] := by
  constructor
  · intro d entries h
    unfold createTargetedContext at h
    simp only [] at h
    rcases targeted_fold_levels _ _ files_data cap _ _ d entries h with h' | ⟨tm0, he⟩
    · simp at h'
    · constructor
      · rw [he]
        refine le_trans (processLevel_length _ _ _) ?_
        unfold targetedSelected
        exact List.length_take_le _ _
      · intro e hee
        rw [he] at hee
        have hp := processLevel_paths _ _ _ _ hee
        simp only [List.mem_map] at hp ⊢
        obtain ⟨x, hx, hxp⟩ := hp
        refine ⟨x, ?_, hxp⟩
        unfold targetedSelected at hx
        have h1 := List.take_subset _ _ hx
        exact (sortByKey_perm _ _).mem_iff.mp h1
  · decide

/-- Witness for C8 (amended): the cap bound instantiated on a concrete
one-file targeted run whose depth-1 level holds exactly that file. -/
theorem per_level_cap_witness :
    ([({ path := "a.py", type := "full", content := "x", priority := 0 } :
        ContextEntry)] : List ContextEntry).length ≤ 50 :=
  ((per_level_cap defaultEnv (TokenManager.mk String.length 1000 0 [] [] [])
    [("a.py", "x")] 50 ["q"]).1 1
    [({ path := "a.py", type := "full", content := "x", priority := 0 } :
      ContextEntry)] (by decide)).1

/-- **C8 (counterexample).** The same three depth-1 files with cap 2 but a
zero token budget produce no level at all (0 entries, not 2): the number of
entries in a level does depend on the remaining token budget, so "exactly 2
appear regardless of remaining budget" is false. -/
theorem per_level_cap_budget_counterexample :
    (createTargetedContext defaultEnv
        (TokenManager.mk String.length 0 0 [] [] [])
        [("a.py", "x"), ("b.py", "y"), ("c.py", "z")] 2 ["q"]).2.levels = [] := by
  decide
